import Mathlib

/-!
Verification development for the lazy operator-graph engine of `nengo-gyrus`:
a shallow embedding of the Node/Fold data model, the vectorizing combinator,
the dispatch registry, the configuration resolver, the graph materializer
("make") and the execution driver ("run"/"probe"), together with theorems
about the documented properties of those components.

The graph is embedded arena-style: an append-only table of node records
referenced by index, so that node identity is the index and structural
sharing is expressed by referencing the same index from several places.
-/

namespace Gyrus

/-- Modelled from the spec: a `Node` is an immutable record of an operation
(`op_kind`), its ordered input nodes (`input_ops`, as arena indices), its
declared per-instant output dimensionality (`size_out`), a local
configuration overlay (`config_overlay`, a parameter-name/value mapping
attached only by configuration-setting nodes), and the immutable
`build_params` captured at construction time and needed to realize the node
(for a `slice` node, the referenced sub-range `[lo, hi)` of its input's
output). -/
structure NodeRec where
  op_kind : String
  input_ops : List Nat
  size_out : Nat
  config_overlay : List (String × Nat)
  build_params : List Nat
deriving Repr, DecidableEq

/-- Modelled from the spec: the persistent, append-only operator graph, stored
arena-style as a growable table of node records referenced by index.
Construction always allocates new nodes and never mutates existing ones. -/
structure Graph where
  nodes : List NodeRec
deriving Repr, DecidableEq

/-- Fetch the record of a node by identity (out-of-range reads give an inert
record with no inputs). -/
def Graph.get (g : Graph) (i : Nat) : NodeRec :=
  g.nodes.getD i ⟨"", [], 0, [], []⟩

/-- Acyclicity invariant of the arena: every node only references
earlier-allocated nodes as inputs. -/
def Graph.wf (g : Graph) : Prop :=
  ∀ i j, j ∈ (g.get i).input_ops → j < i

/-- Executable check for `Graph.wf`. -/
def Graph.wfb (g : Graph) : Bool :=
  (List.range g.nodes.length).all
    (fun i => (g.get i).input_ops.all (fun j => decide (j < i)))

/-- Allocate a new node in the arena, returning its identity. -/
def addNode (r : NodeRec) (g : Graph) : Nat × Graph :=
  (g.nodes.length, ⟨g.nodes ++ [r]⟩)

/-- Allocate a batch of nodes in order, returning their identities. -/
def addAll : List NodeRec → Graph → List Nat × Graph
  | [], g => ([], g)
  | r :: rs, g =>
    let p := addNode r g
    let q := addAll rs p.2
    (p.1 :: q.1, q.2)

/-- Modelled from the spec: the ephemeral Build Context of one
materialization pass: `built` memoizes realized runtime handles by node
identity, and `trace` records, in order, the node identities for which a
backend create call was actually issued (one entry per runtime side
effect). -/
structure BuildCtx where
  built : List (Nat × Nat)
  trace : List Nat
deriving Repr, DecidableEq

/-- A fresh, empty Build Context. -/
def emptyCtx : BuildCtx := ⟨[], []⟩

/-- Realize a list of nodes in order with a given single-node materializer,
threading the Build Context left to right. -/
def makeList (mk : Nat → BuildCtx → Option Nat × BuildCtx) :
    List Nat → BuildCtx → List (Option Nat) × BuildCtx
  | [], ctx => ([], ctx)
  | i :: is, ctx =>
    let p := mk i ctx
    let q := makeList mk is p.2
    (p.1 :: q.1, q.2)

/-- Modelled from the spec: the graph materializer. Recursive descent with
memoization keyed by node identity in the current Build Context: before
realizing a node, recursively realize (or fetch memoized handles for) its
`input_ops`, then issue the backend create call (recorded in `trace`, with
the fresh runtime handle numbered by creation order) and store the handle in
`built` before returning. `fuel` bounds the recursion depth; any fuel larger
than the node's identity is enough on a well-formed graph. -/
def makeNode (g : Graph) : Nat → Nat → BuildCtx → Option Nat × BuildCtx
  | 0, _, ctx => (none, ctx)
  | fuel + 1, i, ctx =>
    match List.lookup i ctx.built with
    | some h => (some h, ctx)
    | none =>
      let p := makeList (fun j c => makeNode g fuel j c) (g.get i).input_ops ctx
      let h := p.2.trace.length
      (some h, ⟨(i, h) :: p.2.built, p.2.trace ++ [i]⟩)

/-- Nodes visited by a full recursive descent from `i` (the set of node
identities whose realization `makeNode` could ever request), with the same
fuel discipline as `makeNode`. -/
def reachNode (g : Graph) : Nat → Nat → List Nat
  | 0, _ => []
  | fuel + 1, i => (((g.get i).input_ops.map (reachNode g fuel)).flatten) ++ [i]

/-- Reachable set of a list of roots. -/
def reachRoots (g : Graph) (fuel : Nat) (is : List Nat) : List Nat :=
  (is.map (reachNode g fuel)).flatten

/-- Modelled from the spec: a `Fold` wraps an N-dimensional array (here a
shape together with the row-major flat list of its entries) whose elements
are operator-graph nodes referenced by identity; a Fold of shape `[]`
degenerates to a single node. -/
structure Fold where
  shape : List Nat
  elems : List Nat
deriving Repr, DecidableEq

/-- Output size of a node. -/
def Graph.sizeOut (g : Graph) (i : Nat) : Nat :=
  (g.get i).size_out

/-- Broadcast of one aligned dimension pair: equal dimensions combine, and a
dimension of 1 stretches to match the other. -/
def bcDim (a b : Nat) : Option Nat :=
  if a = b then some a else if a = 1 then some b else if b = 1 then some a else none

/-- Broadcast of two shapes given with their trailing dimension first. -/
def bcRev : List Nat → List Nat → Option (List Nat)
  | [], ys => some ys
  | xs, [] => some xs
  | x :: xs, y :: ys =>
    match bcDim x y, bcRev xs ys with
    | some d, some r => some (d :: r)
    | _, _ => none

/-- Modelled from the spec: numpy-style broadcast of two shapes — aligning
from the trailing dimension, every dimension pair must be equal or contain a
1; `none` when broadcasting cannot resolve the shapes. -/
def broadcastShapes (s t : List Nat) : Option (List Nat) :=
  (bcRev s.reverse t.reverse).map List.reverse

/-- Row-major digits of a flat index for a shape given trailing-first. -/
def unflattenRev : List Nat → Nat → List Nat
  | [], _ => []
  | d :: ds, i => (i % d) :: unflattenRev ds (i / d)

/-- Flat index from row-major digits for a shape given trailing-first. -/
def flattenRev : List Nat → List Nat → Nat
  | [], _ => 0
  | _ :: _, [] => 0
  | d :: ds, c :: cs => c + d * flattenRev ds cs

/-- Project broadcast-result coordinates onto an input shape: stretched
(size-1) dimensions read index 0. Both lists are trailing-first. -/
def clampRev : List Nat → List Nat → List Nat
  | [], _ => []
  | _ :: ds, [] => 0 :: clampRev ds []
  | d :: ds, c :: cs => (if d = 1 then 0 else c) :: clampRev ds cs

/-- The flat index of the input element of shape `shape` that broadcast
position `i` of the result shape `bshape` reads. -/
def bcastIndex (shape bshape : List Nat) (i : Nat) : Nat :=
  flattenRev shape.reverse (clampRev shape.reverse (unflattenRev bshape.reverse i))

/-- Modelled from the spec: the construction-time shape error raised when
broadcasting cannot resolve the operand shapes. -/
inductive ShapeError where
  | broadcastMismatch : List Nat → List Nat → ShapeError
deriving Repr, DecidableEq

/-- Modelled from the spec: the vectorizing combinator applied to a two-input
elementwise construction: broadcast the operand shapes (raising `ShapeError`
at construction time when they are incompatible), then construct one node per
broadcast position referencing the correspondingly sliced inputs, returning a
Fold of those nodes shaped by the broadcast rule. `szf` gives the constructed
node's output size from its inputs' output sizes. -/
def vectorize2 (opName : String) (szf : Nat → Nat → Nat) (a b : Fold) (g : Graph) :
    Except ShapeError (Fold × Graph) :=
  match broadcastShapes a.shape b.shape with
  | none => .error (.broadcastMismatch a.shape b.shape)
  | some s =>
    let recs := (List.range s.prod).map (fun i =>
      let ia := a.elems.getD (bcastIndex a.shape s i) 0
      let ib := b.elems.getD (bcastIndex b.shape s i) 0
      NodeRec.mk opName [ia, ib] (szf (g.sizeOut ia) (g.sizeOut ib)) [] [])
    let p := addAll recs g
    .ok (⟨s, p.1⟩, p.2)

/-- A registered graph-construction implementation: it may accept its operand
(returning the constructed Fold) or decline by returning `none`. -/
abbrev Handler := Fold → Option Fold

/-- Modelled from the spec: the process-wide, append-only dispatch registry
mapping operation identifiers to graph-construction implementations. -/
abbrev Registry := List (String × Handler)

/-- Modelled from the spec: dispatch failure taxonomy — no implementation
registered at all, versus a chain of registered handlers that each defer and
none accept. -/
inductive DispatchError where
  | noImplFound
  | allDeclined
deriving Repr, DecidableEq

/-- The message carried by each dispatch failure. -/
def DispatchError.message : DispatchError → String
  | .noImplFound => "no implementation found"
  | .allDeclined => "all returned NotImplemented"

/-- Modelled from the spec: extension registration — append a handler for the
named operation to the registry. -/
def register (name : String) (h : Handler) (reg : Registry) : Registry :=
  reg ++ [(name, h)]

/-- The chain of handlers registered for an operation, in registration
order. -/
def handlersFor (reg : Registry) (name : String) : List Handler :=
  (reg.filter (fun e => e.1 == name)).map (fun e => e.2)

/-- Try a handler chain in order; each handler may defer to the next. -/
def tryHandlers : List Handler → Fold → Except DispatchError Fold
  | [], _ => .error .allDeclined
  | h :: hs, x =>
    match h x with
    | some y => .ok y
    | none => tryHandlers hs x

/-- Modelled from the spec: dispatch of an operation applied to a Fold — with
no registered implementation it fails with `noImplFound`; with registered
handlers that all decline it fails with `allDeclined`. -/
def dispatch (reg : Registry) (name : String) (x : Fold) : Except DispatchError Fold :=
  match handlersFor reg name with
  | [] => .error .noImplFound
  | h :: hs => tryHandlers (h :: hs) x

/-- First hit of a per-node resolver over a list of inputs, tried in strict
left-to-right order. -/
def resolveList (rn : Nat → Option Nat) : List Nat → Option Nat
  | [] => none
  | i :: is =>
    match rn i with
    | some v => some v
    | none => resolveList rn is

/-- Modelled from the spec: one step of the configuration walk — a node's own
overlay is consulted first, then its inputs depth-first in strict
left-to-right order. -/
def resolveNode (g : Graph) : Nat → String → Nat → Option Nat
  | 0, _, _ => none
  | fuel + 1, p, i =>
    match List.lookup p (g.get i).config_overlay with
    | some v => some v
    | none => resolveList (fun j => resolveNode g fuel p j) (g.get i).input_ops

/-- Modelled from the spec: for a node `n` being materialized and a parameter
`p` not supplied explicitly at construction, the nearest overlay found by
walking `n`'s own input chain depth-first in strict left-to-right input
order, falling back upstream; `none` when nothing upstream defines `p`. -/
def resolveParam (g : Graph) (fuel : Nat) (p : String) (n : Nat) : Option Nat :=
  resolveList (fun j => resolveNode g fuel p j) (g.get n).input_ops

/-- Modelled from the spec: full resolution of a configurable parameter,
falling back to the process-wide default when nothing upstream defines it. -/
def resolveConfig (g : Graph) (fuel : Nat) (p : String) (n : Nat) (dflt : Nat) : Nat :=
  (resolveParam g fuel p n).getD dflt

/-- Modelled from the spec: `configure` returns a new pass-through node that
records a configuration overlay consumed by the configuration resolver; it
does not alter output shape or semantics. -/
def configure (settings : List (String × Nat)) (u : Nat) (g : Graph) : Nat × Graph :=
  addNode ⟨"configure", [u], (g.get u).size_out, settings, []⟩ g

/-- Modelled from the spec: `transform` attaches a linear-mapping node to its
input; the output size is the row count of the transform matrix. -/
def transform (mat : List (List Int)) (u : Nat) (g : Graph) : Nat × Graph :=
  addNode ⟨"transform", [u], mat.length, [], []⟩ g

/-- Modelled from the spec: `integrate` — given a graph-producing `integrand`
taking the integral-so-far as input, and an external input `u`, produce a
node representing the solution of `rate of change = u + integrand(state)`,
realized via the runtime's recurrent/feedback capability (an `integral`
state node feeding the integrand subgraph, and an `integrate` node combining
`u` with the integrand's output). -/
def integrate (integrand : Nat → Graph → Nat × Graph) (u : Nat) (g : Graph) :
    Nat × Graph :=
  let p := addNode ⟨"integral", [], (g.get u).size_out, [], []⟩ g
  let q := integrand p.1 p.2
  addNode ⟨"integrate", [u, q.1], (g.get u).size_out, [], []⟩ q.2

/-- Modelled from the spec: `lti (A, B, state)` is expressed purely in terms
of `transform` and `integrate`, with no independent primitive:
`result = u.transform(B).integrate(integrand = fun x => state(x).transform(A))`. -/
def lti (A B : List (List Int)) (state : Nat → Graph → Nat × Graph)
    (u : Nat) (g : Graph) : Nat × Graph :=
  let p := transform B u g
  integrate (fun x g1 => let q := state x g1; transform A q.1 q.2) p.1 p.2

/-- The one-line composition named by the spec's refinement sentence —
`u.transform(B).integrate(integrand = fun x => state(x).transform(A))` —
stated independently of `lti` for comparison. -/
def transformIntegrateOneLiner (A B : List (List Int))
    (state : Nat → Graph → Nat × Graph) (u : Nat) (g : Graph) : Nat × Graph :=
  let p := transform B u g
  integrate (fun x g1 => let q := state x g1; transform A q.1 q.2) p.1 p.2

/-- Modelled from the spec: `bundle (axis = 0)` merges a Fold's elements along
axis 0 into nodes whose single output concatenates the merged elements'
outputs (the output size of each bundled node is the sum of its inputs'
output sizes). Returns `none` for a rank-0 fold, which has no axis 0. -/
def bundle (f : Fold) (g : Graph) : Option (Fold × Graph) :=
  match f.shape with
  | [] => none
  | d :: rest =>
    let P := rest.prod
    let recs := (List.range P).map (fun k =>
      let grp := (List.range d).map (fun j => f.elems.getD (j * P + k) 0)
      NodeRec.mk "bundle" grp ((grp.map (g.sizeOut)).sum) [] [])
    let p := addAll recs g
    some (⟨rest, p.1⟩, p.2)

/-- Modelled from the spec: `unbundle` splits each element's multi-dimensional
output into a Fold of one-dimensional outputs — one slice node of output size
1 per output dimension — appending the split axis to the fold's shape. All
elements must share one output size for the result to be a rectangular
array (`none` otherwise). -/
def unbundle (f : Fold) (g : Graph) : Option (Fold × Graph) :=
  let k := g.sizeOut (f.elems.getD 0 0)
  if f.elems.all (fun e => g.sizeOut e == k) then
    let recs :=
      (f.elems.map (fun e => (List.range k).map (fun j => NodeRec.mk "slice" [e] 1 [] [j, j + 1]))).flatten
    let p := addAll recs g
    some (⟨f.shape ++ [k], p.1⟩, p.2)
  else none

/-- Round trip of `bundle` along axis 0 followed by `unbundle`. -/
def bundleUnbundle (f : Fold) (g : Graph) : Option (Fold × Graph) :=
  match bundle f g with
  | none => none
  | some (b, g1) => unbundle b g1

/-- The shape of a slice of `shape` selecting, axis by axis, the index lists
of `sel`; axes beyond `sel` are kept whole. -/
def sliceShape : List Nat → List (List Nat) → List Nat
  | shape, [] => shape
  | [], _ => []
  | _ :: rest, xs :: sels => xs.length :: sliceShape rest sels

/-- The row-major entries of a slice: along the leading axis the array splits
into blocks of `rest.prod` entries; the selection keeps the blocks indexed by
`xs` (in the order given, so ranges, steps, reversals and integer indexing
are all covered) and recursively slices each with the remaining axes'
selections. -/
def sliceRec : List Nat → List (List Nat) → List Nat → List Nat
  | _, [], elems => elems
  | [], _, elems => elems
  | _ :: rest, xs :: sels, elems =>
    (xs.map (fun i =>
      sliceRec rest sels ((elems.drop (i * rest.prod)).take rest.prod))).flatten

/-- Modelled from the spec: slicing a Fold with an index/range per axis
produces a new Fold referencing the selected subset of the same node
identities — a reindexing view, not a copy: the graph is not consulted and no
nodes are allocated. -/
def sliceFoldSel (f : Fold) (sel : List (List Nat)) : Fold :=
  ⟨sliceShape f.shape sel, sliceRec f.shape sel f.elems⟩

/-- Modelled from the spec: the (input node, output dimension) pairs that the
lowering of node `c` connects from its inputs' outputs into the runtime
context. A `slice` node — input `[e]`, `build_params` `[lo, hi]` — is
realized by a partial connection touching only the referenced sub-range
`[lo, hi)` of `e`'s output, avoiding construction of the unused output
dimensions; every other node kind connects every output dimension of each of
its inputs. -/
def realizedDims (g : Graph) (c : Nat) : List (Nat × Nat) :=
  match (g.get c).op_kind == "slice", (g.get c).input_ops, (g.get c).build_params with
  | true, [e], [lo, hi] => (List.range (hi - lo)).map (fun d => (e, lo + d))
  | _, _, _ =>
    ((g.get c).input_ops.map
      (fun e => (List.range (g.sizeOut e)).map (fun d => (e, d)))).flatten

/-- A simulation backend: given a probed node's output size and a number of
steps, produce the captured time series — one row per step, each row of the
declared output size. -/
abbrev Backend := Nat → Nat → List (List Int)

/-- Modelled from the spec: `probe` returns a capture function that, given a
completed simulation, extracts the time series of the probed node. -/
def probe (g : Graph) (e : Nat) : Backend → Nat → List (List Int) :=
  fun backend steps => backend ((g.get e).size_out) steps

/-- Output of `run`: the probed data reshaped to the input Fold's array
structure — the fold's shape together with one time series per element. -/
structure RunResult where
  shape : List Nat
  data : List (List (List Int))
deriving Repr, DecidableEq

/-- Modelled from the spec: `run (duration, dt, backend)` is a convenience
composition — open a fresh ephemeral Build Context, `make` the fold's graph
within it, attach `probe` to every leaf, invoke the backend's simulation for
`duration` at step size `dt` (so `duration / dt` steps), and return the
probed output reshaped to the input Fold's array structure. -/
def run (backend : Backend) (g : Graph) (f : Fold) (duration dt fuel : Nat) :
    RunResult :=
  let _ctx := (makeList (fun j c => makeNode g fuel j c) f.elems emptyCtx).2
  let ps := f.elems.map (fun e => probe g e)
  let steps := duration / dt
  ⟨f.shape, ps.map (fun pr => pr backend steps)⟩

/-- A backend that fulfils the simulation contract: for `steps` steps and a
probed size `size` it returns `steps` rows of width `size`. -/
def goodBackend (backend : Backend) : Prop :=
  ∀ size steps, (backend size steps).length = steps ∧
    ∀ row ∈ backend size steps, row.length = size

/-- A host N-dimensional array view: the element data together with its
writeable flag. -/
structure NpView where
  data : List Nat
  writeable : Bool
deriving Repr, DecidableEq

/-- Modelled from the spec: `Fold.array` returns the fold's underlying array
as a read-only view — the writeable flag is cleared on the returned view. -/
def Fold.array (f : Fold) : NpView :=
  ⟨f.elems, false⟩

/-- Writing one entry through a view: succeeds only on a writeable view. -/
def NpView.write (v : NpView) (i x : Nat) : Except String NpView :=
  if v.writeable then .ok ⟨v.data.set i x, v.writeable⟩
  else .error "assignment destination is read-only"

/-- Per-materialization invariant tying the memo to the side-effect trace: a
node identity appears in the trace exactly when it has a memoized handle. -/
def CtxInv (ctx : BuildCtx) : Prop :=
  ∀ j, j ∈ ctx.trace ↔ (List.lookup j ctx.built).isSome

/-- Concrete graph for the configuration-precedence scenario: node 0 carries
`configure(p = 1)`, node 1 carries `configure(p = 2)`, and node 2 depends on
inputs `[0, 1]` in that order. -/
def cfgExampleGraph : Graph :=
  ⟨[⟨"configure", [], 1, [("p", 1)], []⟩, ⟨"configure", [], 1, [("p", 2)], []⟩,
    ⟨"op", [0, 1], 1, [], []⟩]⟩

/-- Concrete graph for the sharing scenario: node 0 is a stimulus referenced
as input by both node 1 and node 2. -/
def shareExampleGraph : Graph :=
  ⟨[⟨"stimulus", [], 1, [], []⟩, ⟨"decode", [0], 1, [], []⟩, ⟨"decode", [0], 1, [], []⟩]⟩

/-- Concrete graph for the slicing scenario: a slice node 1 referencing the
output sub-range `[1, 3)` of the size-4 stimulus 0, decoded by node 2, next
to an independent stimulus/decode chain `3 → 4`; a fold holds the two decode
nodes 2 and 4. -/
def sliceExampleGraph : Graph :=
  ⟨[⟨"stimulus", [], 4, [], []⟩, ⟨"slice", [0], 2, [], [1, 3]⟩,
    ⟨"decode", [1], 1, [], []⟩, ⟨"stimulus", [], 1, [], []⟩,
    ⟨"decode", [3], 1, [], []⟩]⟩

/-- Two unit-size stimulus nodes, for the bundle/unbundle round trip. -/
def unitFoldGraph : Graph :=
  ⟨[⟨"stimulus", [], 1, [], []⟩, ⟨"stimulus", [], 1, [], []⟩]⟩

/-- One stimulus node of output size 2. -/
def size2Graph : Graph := ⟨[⟨"stimulus", [], 2, [], []⟩]⟩

/-- A rank-1 fold holding the single size-2 node. -/
def size2Fold : Fold := ⟨[1], [0]⟩

/-- Six unit-size stimulus nodes. -/
def rank2Graph : Graph :=
  ⟨[⟨"stimulus", [], 1, [], []⟩, ⟨"stimulus", [], 1, [], []⟩, ⟨"stimulus", [], 1, [], []⟩,
    ⟨"stimulus", [], 1, [], []⟩, ⟨"stimulus", [], 1, [], []⟩, ⟨"stimulus", [], 1, [], []⟩]⟩

/-- A rank-2 fold of shape `[2, 3]` over the six unit-size nodes. -/
def rank2Fold : Fold := ⟨[2, 3], [0, 1, 2, 3, 4, 5]⟩

/-- A backend returning all-zero traces of the contracted dimensions. -/
def constBackend : Backend :=
  fun size steps => List.replicate steps (List.replicate size 0)

/-- A fold of shape `[3, 4]` whose twelve entries all reference node 0. -/
def runExampleFold : Fold := ⟨[3, 4], List.replicate 12 0⟩

end Gyrus

namespace Gyrus

theorem wf_of_wfb (g : Graph) (h : g.wfb = true) : g.wf := by
  intro i j hj
  by_cases hi : i < g.nodes.length
  · have := (List.all_eq_true.mp h) i (List.mem_range.mpr hi)
    have := (List.all_eq_true.mp this) j hj
    exact of_decide_eq_true this
  · have : g.get i = ⟨"", [], 0, [], []⟩ :=
      List.getD_eq_default _ _ (Nat.le_of_not_lt hi)
    rw [this] at hj
    simp at hj

theorem lookup_cons_self {β : Type} (i : Nat) (h : β) (l : List (Nat × β)) :
    List.lookup i ((i, h) :: l) = some h := by
  simp [List.lookup]

theorem lookup_cons_ne {β : Type} {j i : Nat} (h : β) (l : List (Nat × β))
    (hne : j ≠ i) : List.lookup j ((i, h) :: l) = List.lookup j l := by
  simp [List.lookup, beq_false_of_ne hne]

theorem addAll_fst_length : ∀ (rs : List NodeRec) (g : Graph),
    (addAll rs g).1.length = rs.length := by
  intro rs
  induction rs with
  | nil => intro g; rfl
  | cons r rs ih => intro g; simp [addAll, ih]

theorem get_append_new (g : Graph) (r : NodeRec) :
    Graph.get ⟨g.nodes ++ [r]⟩ g.nodes.length = r := by
  unfold Graph.get
  rw [List.getD_append_right _ _ _ _ (Nat.le_refl _)]
  simp

theorem get_append_old (g : Graph) (r : NodeRec) (i : Nat)
    (hi : i < g.nodes.length) :
    Graph.get ⟨g.nodes ++ [r]⟩ i = g.get i := by
  unfold Graph.get
  exact List.getD_append _ _ _ _ hi

theorem addAll_get_old : ∀ (rs : List NodeRec) (g : Graph) (i : Nat),
    i < g.nodes.length → (addAll rs g).2.get i = g.get i := by
  intro rs
  induction rs with
  | nil => intro g i _; rfl
  | cons r rs ih =>
    intro g i hi
    simp only [addAll, addNode]
    rw [ih _ _ (by simpa using Nat.lt_succ_of_lt hi)]
    exact get_append_old g r i hi

theorem addAll_get_mem : ∀ (rs : List NodeRec) (g : Graph) (j : Nat),
    j ∈ (addAll rs g).1 → ∃ r ∈ rs, (addAll rs g).2.get j = r := by
  intro rs
  induction rs with
  | nil => intro g j hj; simp [addAll] at hj
  | cons r rs ih =>
    intro g j hj
    simp only [addAll, addNode] at hj ⊢
    rcases List.mem_cons.mp hj with hj | hj
    · subst hj
      refine ⟨r, List.mem_cons_self r rs, ?_⟩
      rw [addAll_get_old rs _ _ (by simp)]
      exact get_append_new g r
    · obtain ⟨r', hr', hget⟩ := ih _ _ hj
      exact ⟨r', List.mem_cons_of_mem r hr', hget⟩

/-- C1: for every input operator `u`, every linear system `(A, B)` and every
state function, the operator graph returned by `lti (A, B, state)` is exactly
the one built by the one-line composition
`u.transform(B).integrate(integrand = fun x => state(x).transform(A))` —
`lti` introduces no independent primitive. -/
theorem lti_is_transform_integrate_composition (A B : List (List Int))
    (state : Nat → Graph → Nat × Graph) (u : Nat) (g : Graph) :
    lti A B state u g = transformIntegrateOneLiner A B state u g := rfl

/-- C10: `Fold.array` returns the fold's underlying array as a read-only
view: its writeable flag is cleared and every attempt to write through the
returned view fails. -/
theorem fold_array_read_only (f : Fold) (i x : Nat) :
    (Fold.array f).writeable = false
    ∧ (Fold.array f).write i x = .error "assignment destination is read-only" := by
  exact ⟨rfl, rfl⟩

/-- C2: a parameter not supplied explicitly at construction is resolved by
the deterministic depth-first, strict left-to-right walk of the node's input
chain (`resolveParam`), with a process-wide default as final fallback; in
particular, for a node with inputs `[a, b]` in that order where `a` carries
`configure(p = v1)` and `b` carries `configure(p = v2)`, resolving `p` yields
`v1`. -/
theorem configure_left_to_right_precedence (g : Graph) (n a b : Nat)
    (p : String) (v1 v2 : Nat) (fuel : Nat)
    (hin : (g.get n).input_ops = [a, b])
    (ha : List.lookup p (g.get a).config_overlay = some v1)
    (_hb : List.lookup p (g.get b).config_overlay = some v2)
    (hfuel : 1 ≤ fuel) :
    resolveParam g fuel p n = some v1
    ∧ ∀ m d, resolveParam g fuel p m = none → resolveConfig g fuel p m d = d := by
  constructor
  · obtain ⟨f, rfl⟩ : ∃ f, fuel = f + 1 :=
      ⟨fuel - 1, (Nat.succ_pred_eq_of_pos hfuel).symm⟩
    rw [resolveParam, hin]
    simp [resolveList, resolveNode, ha]
  · intro m d hnone
    simp [resolveConfig, hnone]

/-- Closed instance of the precedence theorem on `cfgExampleGraph`:
`configure(p = 1)` on input 0 wins over `configure(p = 2)` on input 1. -/
theorem configure_left_to_right_precedence_witness :
    (cfgExampleGraph.get 2).input_ops = [0, 1]
    ∧ List.lookup "p" (cfgExampleGraph.get 0).config_overlay = some 1
    ∧ List.lookup "p" (cfgExampleGraph.get 1).config_overlay = some 2
    ∧ resolveParam cfgExampleGraph 1 "p" 2 = some 1
    ∧ resolveConfig cfgExampleGraph 1 "q" 2 99 = 99 := by
  have h := configure_left_to_right_precedence cfgExampleGraph 2 0 1 "p" 1 2 1
    (by decide) (by decide) (by decide) (by decide)
  exact ⟨by decide, by decide, by decide, h.1, by decide⟩

/-- C4: a vectorized two-operand construction returns a Fold whose shape is
exactly the numpy-style broadcast of its operands' shapes (with one
constructed node per broadcast position), and when broadcasting cannot
resolve the shapes it raises `ShapeError` at construction time — the error is
the construction call's return value, never deferred to materialization. -/
theorem vectorize_broadcast_shape_law (g : Graph) (opName : String)
    (szf : Nat → Nat → Nat) (a b : Fold) :
    ((vectorize2 opName szf a b g).toOption.map (fun r => r.1.shape)
      = broadcastShapes a.shape b.shape)
    ∧ (broadcastShapes a.shape b.shape = none →
        vectorize2 opName szf a b g = .error (.broadcastMismatch a.shape b.shape))
    ∧ (∀ s r, broadcastShapes a.shape b.shape = some s →
        vectorize2 opName szf a b g = .ok r →
        r.1.shape = s ∧ r.1.elems.length = s.prod) := by
  refine ⟨?_, ?_, ?_⟩
  · cases hbc : broadcastShapes a.shape b.shape with
    | none => simp [vectorize2, hbc, Except.toOption]
    | some s => simp [vectorize2, hbc, Except.toOption]
  · intro hbc
    simp [vectorize2, hbc]
  · intro s r hbc hok
    rw [vectorize2, hbc] at hok
    simp only [Except.ok.injEq] at hok
    subst hok
    exact ⟨rfl, by simp [addAll_fst_length]⟩

/-- Closed instance of the shape law: shapes `[3, 1]` and `[4]` broadcast to
`[3, 4]` and the construction succeeds with that shape; shapes `[3, 2]` and
`[4]` cannot broadcast and the construction returns `ShapeError`. -/
theorem vectorize_broadcast_shape_law_witness :
    ((vectorize2 "multiply" (fun s _ => s) ⟨[3, 1], [0, 1, 2]⟩ ⟨[4], [0, 1, 2, 3]⟩
        shareExampleGraph).toOption.map (fun r => r.1.shape) = some [3, 4])
    ∧ (vectorize2 "multiply" (fun s _ => s) ⟨[3, 2], List.range 6⟩ ⟨[4], [0, 1, 2, 3]⟩
        shareExampleGraph = .error (.broadcastMismatch [3, 2] [4])) := by
  constructor
  · have h := (vectorize_broadcast_shape_law shareExampleGraph "multiply"
      (fun s _ => s) ⟨[3, 1], [0, 1, 2]⟩ ⟨[4], [0, 1, 2, 3]⟩).1
    rw [h]
    decide
  · exact (vectorize_broadcast_shape_law shareExampleGraph "multiply"
      (fun s _ => s) ⟨[3, 2], List.range 6⟩ ⟨[4], [0, 1, 2, 3]⟩).2.1 (by decide)

/-- C5: an operation with no registered implementation dispatches to the
`noImplFound` failure, whose message is "no implementation found" and which
is distinguishable from the `allDeclined` failure produced when registered
handlers all defer; after registering an accepting handler for the
operation, the same call succeeds with the handler's constructed Fold. -/
theorem dispatch_failure_and_registration (reg : Registry) (op : String)
    (x y : Fold) (h hd : Handler)
    (hempty : handlersFor reg op = [])
    (hacc : h x = some y) (hdecl : hd x = none) :
    dispatch reg op x = .error .noImplFound
    ∧ DispatchError.message .noImplFound = "no implementation found"
    ∧ DispatchError.noImplFound ≠ DispatchError.allDeclined
    ∧ dispatch (register op hd reg) op x = .error .allDeclined
    ∧ dispatch (register op h reg) op x = .ok y := by
  have hflt : reg.filter (fun e => e.1 == op) = [] := by
    cases hcase : reg.filter (fun e => e.1 == op) with
    | nil => rfl
    | cons z zs =>
      rw [handlersFor, hcase] at hempty
      simp at hempty
  have hreg : ∀ hh : Handler, handlersFor (register op hh reg) op = [hh] := by
    intro hh
    rw [handlersFor, register, List.filter_append, hflt]
    simp
  refine ⟨?_, rfl, by decide, ?_, ?_⟩
  · rw [dispatch, hempty]
  · rw [dispatch, hreg hd]
    simp [tryHandlers, hdecl]
  · rw [dispatch, hreg h]
    simp [tryHandlers, hacc]

/-- Closed instance of the dispatch theorem at operation "sqrt": the empty
registry fails with "no implementation found", a registry whose only handler
declines fails with `allDeclined`, and registering an accepting handler makes
the same call succeed with a Fold of the operand's shape. -/
theorem dispatch_failure_and_registration_witness :
    dispatch [] "sqrt" ⟨[2], [0, 1]⟩ = .error .noImplFound
    ∧ DispatchError.message .noImplFound = "no implementation found"
    ∧ dispatch (register "sqrt" (fun _ => none) []) "sqrt" ⟨[2], [0, 1]⟩
        = .error .allDeclined
    ∧ dispatch (register "sqrt" (fun f => some f) []) "sqrt" ⟨[2], [0, 1]⟩
        = .ok ⟨[2], [0, 1]⟩
    ∧ (Fold.mk [2] [0, 1]).shape = [2] := by
  have h := dispatch_failure_and_registration [] "sqrt" ⟨[2], [0, 1]⟩
    ⟨[2], [0, 1]⟩ (fun f => some f) (fun _ => none) rfl rfl rfl
  exact ⟨h.1, h.2.1, h.2.2.2.1, h.2.2.2.2, rfl⟩

theorem makeList_built_mono (mk : Nat → BuildCtx → Option Nat × BuildCtx)
    (hmk : ∀ i c j h, List.lookup j c.built = some h →
      List.lookup j (mk i c).2.built = some h) :
    ∀ (is : List Nat) (ctx : BuildCtx) (j h : Nat),
      List.lookup j ctx.built = some h →
      List.lookup j (makeList mk is ctx).2.built = some h := by
  intro is
  induction is with
  | nil => intro ctx j h hh; simpa [makeList] using hh
  | cons i is ih =>
    intro ctx j h hh
    simp only [makeList]
    exact ih _ _ _ (hmk _ _ _ _ hh)

theorem makeNode_built_mono (g : Graph) :
    ∀ (fuel i : Nat) (ctx : BuildCtx) (j h : Nat),
      List.lookup j ctx.built = some h →
      List.lookup j (makeNode g fuel i ctx).2.built = some h := by
  intro fuel
  induction fuel with
  | zero => intro i ctx j h hh; simpa [makeNode] using hh
  | succ fuel ih =>
    intro i ctx j h hh
    simp only [makeNode]
    cases hcase : List.lookup i ctx.built with
    | some h' => simpa using hh
    | none =>
      have h2 := makeList_built_mono (fun j c => makeNode g fuel j c)
        (fun a c jj hh' hl => ih a c jj hh' hl) (g.get i).input_ops ctx j h hh
      have hji : j ≠ i := by
        intro e
        subst e
        rw [hh] at hcase
        exact Option.noConfusion hcase
      simpa [lookup_cons_ne _ _ hji] using h2

theorem makeNode_built_self (g : Graph) (fuel i : Nat) (ctx : BuildCtx)
    (hfuel : 1 ≤ fuel) :
    (List.lookup i (makeNode g fuel i ctx).2.built).isSome := by
  obtain ⟨f, rfl⟩ : ∃ f, fuel = f + 1 :=
    ⟨fuel - 1, (Nat.succ_pred_eq_of_pos hfuel).symm⟩
  simp only [makeNode]
  cases hcase : List.lookup i ctx.built with
  | some h => simp [hcase]
  | none => simp [lookup_cons_self]

theorem makeList_builds_members (mk : Nat → BuildCtx → Option Nat × BuildCtx)
    (hmono : ∀ i c j h, List.lookup j c.built = some h →
      List.lookup j (mk i c).2.built = some h)
    (hself : ∀ i c, (List.lookup i (mk i c).2.built).isSome) :
    ∀ (is : List Nat) (ctx : BuildCtx) (x : Nat), x ∈ is →
      (List.lookup x (makeList mk is ctx).2.built).isSome := by
  intro is
  induction is with
  | nil => intro ctx x hx; exact absurd hx (List.not_mem_nil x)
  | cons i is ih =>
    intro ctx x hx
    simp only [makeList]
    rcases List.mem_cons.mp hx with hx | hx
    · subst hx
      obtain ⟨h, hh⟩ := Option.isSome_iff_exists.mp (hself x ctx)
      rw [Option.isSome_iff_exists]
      exact ⟨h, makeList_built_mono mk hmono is _ x h hh⟩
    · exact ih _ _ hx

theorem makeList_trace_sub (mk : Nat → BuildCtx → Option Nat × BuildCtx)
    (R : Nat → List Nat)
    (hmk : ∀ i c j, j ∈ (mk i c).2.trace → j ∈ c.trace ∨ j ∈ R i) :
    ∀ (is : List Nat) (ctx : BuildCtx) (j : Nat),
      j ∈ (makeList mk is ctx).2.trace →
      j ∈ ctx.trace ∨ ∃ k ∈ is, j ∈ R k := by
  intro is
  induction is with
  | nil => intro ctx j hj; exact Or.inl (by simpa [makeList] using hj)
  | cons i is ih =>
    intro ctx j hj
    simp only [makeList] at hj
    rcases ih _ _ hj with hj | ⟨k, hk, hjk⟩
    · rcases hmk i ctx j hj with hj | hj
      · exact Or.inl hj
      · exact Or.inr ⟨i, List.mem_cons_self i is, hj⟩
    · exact Or.inr ⟨k, List.mem_cons_of_mem i hk, hjk⟩

theorem makeNode_trace_sub (g : Graph) :
    ∀ (fuel i : Nat) (ctx : BuildCtx) (j : Nat),
      j ∈ (makeNode g fuel i ctx).2.trace →
      j ∈ ctx.trace ∨ j ∈ reachNode g fuel i := by
  intro fuel
  induction fuel with
  | zero => intro i ctx j hj; exact Or.inl (by simpa [makeNode] using hj)
  | succ fuel ih =>
    intro i ctx j hj
    simp only [makeNode] at hj
    cases hcase : List.lookup i ctx.built with
    | some h => rw [hcase] at hj; exact Or.inl hj
    | none =>
      rw [hcase] at hj
      simp only [List.mem_append, List.mem_singleton] at hj
      rcases hj with hj | hj
      · rcases makeList_trace_sub (fun j c => makeNode g fuel j c)
          (reachNode g fuel) (fun a c jj hjj => ih a c jj hjj)
          (g.get i).input_ops ctx j hj with hj | ⟨k, hk, hjk⟩
        · exact Or.inl hj
        · refine Or.inr ?_
          simp only [reachNode, List.mem_append, List.mem_flatten]
          exact Or.inl ⟨reachNode g fuel k, List.mem_map_of_mem _ hk, hjk⟩
      · subst hj
        refine Or.inr ?_
        simp [reachNode]

theorem reachNode_le (g : Graph) (hwf : g.wf) :
    ∀ (fuel i j : Nat), j ∈ reachNode g fuel i → j ≤ i := by
  intro fuel
  induction fuel with
  | zero => intro i j hj; simp [reachNode] at hj
  | succ fuel ih =>
    intro i j hj
    simp only [reachNode, List.mem_append, List.mem_flatten,
      List.mem_singleton] at hj
    rcases hj with ⟨l, hl, hjl⟩ | hj
    · obtain ⟨k, hk, rfl⟩ := List.mem_map.mp hl
      exact Nat.le_of_lt (Nat.lt_of_le_of_lt (ih k j hjl) (hwf i k hk))
    · exact Nat.le_of_eq hj

theorem makeList_inv_nodup (mk : Nat → BuildCtx → Option Nat × BuildCtx)
    (hmk : ∀ i c, CtxInv c → c.trace.Nodup →
      CtxInv (mk i c).2 ∧ (mk i c).2.trace.Nodup) :
    ∀ (is : List Nat) (ctx : BuildCtx), CtxInv ctx → ctx.trace.Nodup →
      CtxInv (makeList mk is ctx).2 ∧ (makeList mk is ctx).2.trace.Nodup := by
  intro is
  induction is with
  | nil => intro ctx hinv hnd; simpa [makeList] using ⟨hinv, hnd⟩
  | cons i is ih =>
    intro ctx hinv hnd
    simp only [makeList]
    obtain ⟨hinv1, hnd1⟩ := hmk i ctx hinv hnd
    exact ih _ hinv1 hnd1

theorem makeNode_inv_nodup (g : Graph) (hwf : g.wf) :
    ∀ (fuel i : Nat) (ctx : BuildCtx), CtxInv ctx → ctx.trace.Nodup →
      CtxInv (makeNode g fuel i ctx).2 ∧ (makeNode g fuel i ctx).2.trace.Nodup := by
  intro fuel
  induction fuel with
  | zero => intro i ctx hinv hnd; simpa [makeNode] using ⟨hinv, hnd⟩
  | succ fuel ih =>
    intro i ctx hinv hnd
    simp only [makeNode]
    cases hcase : List.lookup i ctx.built with
    | some h => exact ⟨hinv, hnd⟩
    | none =>
      obtain ⟨hinv1, hnd1⟩ := makeList_inv_nodup (fun j c => makeNode g fuel j c)
        (fun a c hc hc' => ih a c hc hc') (g.get i).input_ops ctx hinv hnd
      have hni : i ∉ (makeList (fun j c => makeNode g fuel j c)
          (g.get i).input_ops ctx).2.trace := by
        intro hmem
        rcases makeList_trace_sub (fun j c => makeNode g fuel j c)
          (reachNode g fuel) (fun a c jj hjj => makeNode_trace_sub g fuel a c jj hjj)
          (g.get i).input_ops ctx i hmem with hmem | ⟨k, hk, hik⟩
        · have := (hinv i).mp hmem
          rw [hcase] at this
          simp at this
        · exact absurd (hwf i k hk) (Nat.not_lt_of_le (reachNode_le g hwf fuel k i hik))
      constructor
      · intro j
        simp only [List.mem_append, List.mem_singleton]
        by_cases hji : j = i
        · subst hji
          simp [lookup_cons_self]
        · rw [lookup_cons_ne _ _ hji]
          have := hinv1 j
          simp [this, hji]
      · simp only [List.nodup_append, List.nodup_cons, List.nodup_nil,
          List.disjoint_singleton]
        exact ⟨hnd1, by simp, by simpa using hni⟩

/-- C3: on a well-formed graph, if node `x` is referenced as input by both
`y` and `z` and both are materialized in one Build Context (with enough
fuel), then `x` is realized exactly once — the side-effect trace mentions `x`
exactly once — and the memoized handle `built[x]` is identical across both
materializations. -/
theorem shared_node_realized_once (g : Graph) (x y z fy fz : Nat)
    (hwf : g.wf)
    (hxy : x ∈ (g.get y).input_ops) (_hxz : x ∈ (g.get z).input_ops)
    (hfy : 2 ≤ fy) :
    ((makeNode g fz z (makeNode g fy y emptyCtx).2).2.trace.count x = 1)
    ∧ List.lookup x (makeNode g fy y emptyCtx).2.built
        = List.lookup x (makeNode g fz z (makeNode g fy y emptyCtx).2).2.built
    ∧ (List.lookup x (makeNode g fy y emptyCtx).2.built).isSome := by
  obtain ⟨f, rfl⟩ : ∃ f, fy = f + 1 :=
    ⟨fy - 1, (Nat.succ_pred_eq_of_pos (Nat.lt_of_lt_of_le Nat.zero_lt_two hfy)).symm⟩
  have hf1 : 1 ≤ f := Nat.lt_of_succ_lt_succ hfy
  have hxne : x ≠ y := by
    intro e
    have hlt := hwf y x hxy
    subst e
    exact Nat.lt_irrefl x hlt
  have hxbuilt1 : (List.lookup x (makeNode g (f + 1) y emptyCtx).2.built).isSome := by
    simp only [makeNode]
    cases hcase : List.lookup y (emptyCtx).built with
    | some h => exact Option.noConfusion hcase
    | none =>
      have hmem := makeList_builds_members (fun j c => makeNode g f j c)
        (fun a c jj hh hl => makeNode_built_mono g f a c jj hh hl)
        (fun a c => makeNode_built_self g f a c hf1)
        (g.get y).input_ops emptyCtx x hxy
      obtain ⟨h, hh⟩ := Option.isSome_iff_exists.mp hmem
      simp [lookup_cons_ne _ _ hxne, hh]
  obtain ⟨h, hh1⟩ := Option.isSome_iff_exists.mp hxbuilt1
  have hh2 : List.lookup x (makeNode g fz z (makeNode g (f + 1) y emptyCtx).2).2.built
      = some h := makeNode_built_mono g fz z _ x h hh1
  have hinv0 : CtxInv emptyCtx := by intro j; simp [emptyCtx, List.lookup]
  obtain ⟨hinv1, hnd1⟩ :=
    makeNode_inv_nodup g hwf (f + 1) y emptyCtx hinv0 (by simp [emptyCtx])
  obtain ⟨hinv2, hnd2⟩ := makeNode_inv_nodup g hwf fz z _ hinv1 hnd1
  have hxmem : x ∈ (makeNode g fz z (makeNode g (f + 1) y emptyCtx).2).2.trace :=
    (hinv2 x).mpr (by simp [hh2])
  refine ⟨List.count_eq_one_of_mem hnd2 hxmem, ?_, ?_⟩
  · rw [hh1, hh2]
  · simp [hh1]

/-- Closed instance of the sharing guarantee on `shareExampleGraph`: node 0,
input of both 1 and 2, appears exactly once in the realization trace and its
memoized handle is stable. -/
theorem shared_node_realized_once_witness :
    shareExampleGraph.wfb = true
    ∧ 0 ∈ (shareExampleGraph.get 1).input_ops
    ∧ 0 ∈ (shareExampleGraph.get 2).input_ops
    ∧ ((makeNode shareExampleGraph 5 2
          (makeNode shareExampleGraph 5 1 emptyCtx).2).2.trace.count 0 = 1)
    ∧ List.lookup 0 (makeNode shareExampleGraph 5 1 emptyCtx).2.built
        = List.lookup 0 (makeNode shareExampleGraph 5 2
            (makeNode shareExampleGraph 5 1 emptyCtx).2).2.built := by
  have h := shared_node_realized_once shareExampleGraph 0 1 2 5 5
    (wf_of_wfb _ (by decide)) (by decide) (by decide) (by decide)
  exact ⟨by decide, by decide, by decide, h.1, h.2.1⟩

theorem sliceRec_subset : ∀ (sel : List (List Nat)) (shape elems : List Nat)
    (j : Nat), j ∈ sliceRec shape sel elems → j ∈ elems := by
  intro sel
  induction sel with
  | nil =>
    intro shape elems j hj
    cases shape <;> simpa [sliceRec] using hj
  | cons xs sels ih =>
    intro shape elems j hj
    cases shape with
    | nil => simpa [sliceRec] using hj
    | cons d rest =>
      simp only [sliceRec, List.mem_flatten] at hj
      obtain ⟨l, hl, hjl⟩ := hj
      obtain ⟨i, _, rfl⟩ := List.mem_map.mp hl
      exact List.mem_of_mem_drop (List.mem_of_mem_take (ih _ _ _ hjl))

/-- C9: for every Fold and every slice of it (a per-axis index/range
selection), slicing produces a reindexing view: the sliced Fold references a
subset of the very same node identities, with no copying and no graph
growth. Materializing the sliced result realizes only the selected portion
of the operator graph: nodes outside the subset reachable from the selected
elements are never realized, and every `slice` node among the realized ones
is lowered as a partial connection touching exactly the referenced output
sub-range `[lo, hi)` of its input — output sub-ranges outside the selected
subset are not realized into the runtime context. -/
theorem slice_is_view_and_realizes_only_selected (g : Graph) (f : Fold)
    (sel : List (List Nat)) (fuel : Nat) :
    (∀ j, j ∈ (sliceFoldSel f sel).elems → j ∈ f.elems)
    ∧ (∀ j, j ∈ (makeList (fun i c => makeNode g fuel i c)
          (sliceFoldSel f sel).elems emptyCtx).2.trace →
        j ∈ reachRoots g fuel (sliceFoldSel f sel).elems)
    ∧ (∀ c, c ∈ (makeList (fun i c => makeNode g fuel i c)
          (sliceFoldSel f sel).elems emptyCtx).2.trace →
        ∀ e lo hi, (g.get c).op_kind = "slice" →
          (g.get c).input_ops = [e] → (g.get c).build_params = [lo, hi] →
          (∀ q ∈ realizedDims g c, q.1 = e)
          ∧ ∀ d, ((e, d) ∈ realizedDims g c ↔ (lo ≤ d ∧ d < hi))) := by
  refine ⟨?_, ?_, ?_⟩
  · intro j hj
    exact sliceRec_subset sel f.shape f.elems j hj
  · intro j hj
    rcases makeList_trace_sub (fun i c => makeNode g fuel i c)
      (reachNode g fuel) (fun i c jj hjj => makeNode_trace_sub g fuel i c jj hjj)
      (sliceFoldSel f sel).elems emptyCtx j hj with hj | ⟨k, hk, hjk⟩
    · simp [emptyCtx] at hj
    · simp only [reachRoots, List.mem_flatten]
      exact ⟨reachNode g fuel k, List.mem_map_of_mem _ hk, hjk⟩
  · intro c _ e lo hi hop hin hbp
    have hred : realizedDims g c = (List.range (hi - lo)).map (fun d => (e, lo + d)) := by
      have hb : ("slice" == "slice") = true := rfl
      rw [realizedDims, hop, hin, hbp, hb]
    constructor
    · intro q hq
      rw [hred] at hq
      obtain ⟨d0, _, rfl⟩ := List.mem_map.mp hq
      rfl
    · intro d
      rw [hred]
      constructor
      · intro hd
        obtain ⟨d0, hd0, heq⟩ := List.mem_map.mp hd
        have hd0' := List.mem_range.mp hd0
        have : lo + d0 = d := congrArg Prod.snd heq
        omega
      · intro hd
        refine List.mem_map.mpr ⟨d - lo, List.mem_range.mpr (by omega), ?_⟩
        have : lo + (d - lo) = d := by omega
        rw [this]

/-- Closed instance of the slicing theorem on `sliceExampleGraph`: selecting
the first element of the fold `[2, 4]` keeps referencing node 2; its
materialization realizes exactly the chain `0 → 1 → 2` — the unselected
chain `3 → 4` is absent — and the realized slice node 1 connects exactly the
sub-range `[1, 3)` of node 0's size-4 output, with dimensions 0 and 3 never
realized. -/
theorem slice_is_view_and_realizes_only_selected_witness :
    (2 ∈ (sliceFoldSel ⟨[2], [2, 4]⟩ [[0]]).elems ∧ 2 ∈ (Fold.mk [2] [2, 4]).elems)
    ∧ (makeList (fun i c => makeNode sliceExampleGraph 6 i c)
          (sliceFoldSel ⟨[2], [2, 4]⟩ [[0]]).elems emptyCtx).2.trace = [0, 1, 2]
    ∧ (4 ∉ reachRoots sliceExampleGraph 6 (sliceFoldSel ⟨[2], [2, 4]⟩ [[0]]).elems)
    ∧ (3 ∉ reachRoots sliceExampleGraph 6 (sliceFoldSel ⟨[2], [2, 4]⟩ [[0]]).elems)
    ∧ ((0, 2) ∈ realizedDims sliceExampleGraph 1 ↔ (1 ≤ 2 ∧ 2 < 3))
    ∧ ((0, 0) ∉ realizedDims sliceExampleGraph 1)
    ∧ ((0, 3) ∉ realizedDims sliceExampleGraph 1) := by
  have h := slice_is_view_and_realizes_only_selected sliceExampleGraph
    ⟨[2], [2, 4]⟩ [[0]] 6
  refine ⟨⟨by decide, h.1 2 (by decide)⟩, by decide, by decide, by decide, ?_, by decide, by decide⟩
  exact (h.2.2 1 (by decide) 0 1 3 rfl rfl rfl).2 2

/-- C8: construction is referentially transparent — allocating the same node
record twice (equal arguments, same input identities) yields two distinct
object identities whose stored records are equal, whose materializations
issue the same sequence of backend operation kinds, and whose configurable
parameters resolve identically; no hidden state beyond the explicit
arguments influences the result. -/
theorem construction_is_pure (g : Graph) (r : NodeRec) (fuel : Nat) (p : String) :
    (addNode r g).1 ≠ (addNode r (addNode r g).2).1
    ∧ (addNode r (addNode r g).2).2.get (addNode r g).1
        = (addNode r (addNode r g).2).2.get (addNode r (addNode r g).2).1
    ∧ ((makeNode (addNode r (addNode r g).2).2 fuel (addNode r g).1
          emptyCtx).2.trace.map
            (fun j => ((addNode r (addNode r g).2).2.get j).op_kind))
      = ((makeNode (addNode r (addNode r g).2).2 fuel
            (addNode r (addNode r g).2).1 emptyCtx).2.trace.map
              (fun j => ((addNode r (addNode r g).2).2.get j).op_kind))
    ∧ resolveParam (addNode r (addNode r g).2).2 fuel p (addNode r g).1
        = resolveParam (addNode r (addNode r g).2).2 fuel p
            (addNode r (addNode r g).2).1 := by
  have e1 : (addNode r g).1 = g.nodes.length := rfl
  have e2 : (addNode r (addNode r g).2).1 = g.nodes.length + 1 := by
    simp [addNode]
  have hget1 : (addNode r (addNode r g).2).2.get (addNode r g).1 = r := by
    rw [e1]
    show Graph.get ⟨(g.nodes ++ [r]) ++ [r]⟩ g.nodes.length = r
    rw [show Graph.mk ((g.nodes ++ [r]) ++ [r])
        = Graph.mk ((Graph.mk (g.nodes ++ [r])).nodes ++ [r]) from rfl]
    rw [get_append_old _ _ _ (by simp)]
    exact get_append_new g r
  have hget2 : (addNode r (addNode r g).2).2.get
      (addNode r (addNode r g).2).1 = r := by
    rw [e2]
    show Graph.get ⟨(g.nodes ++ [r]) ++ [r]⟩ (g.nodes.length + 1) = r
    have := get_append_new ⟨g.nodes ++ [r]⟩ r
    simpa using this
  refine ⟨by rw [e1, e2]; omega, by rw [hget1, hget2], ?_, ?_⟩
  · cases fuel with
    | zero => rfl
    | succ fuel =>
      simp only [makeNode, emptyCtx, List.lookup]
      rw [hget1, hget2]
      simp only [List.map_append, List.map_cons, List.map_nil]
      rw [hget1, hget2]
  · rw [resolveParam, resolveParam, hget1, hget2]

/-- C6: `run` is the documented composition (ephemeral context, `make`,
`probe` on every leaf, backend simulation, reshape): for a contract-abiding
backend its result carries the input Fold's shape unchanged, with one time
series per fold element of `duration / dt` rows, each row as wide as that
element's output size — so a single operator's run result has shape
`(time, size_out)` and a `(3, 4)` fold's result is reshapable to
`(3, 4, T, ...)`. -/
theorem run_reshapes_probed_output (backend : Backend) (g : Graph) (f : Fold)
    (duration dt fuel : Nat) (hgb : goodBackend backend) :
    (run backend g f duration dt fuel).shape = f.shape
    ∧ List.Forall₂ (fun e series => series.length = duration / dt ∧
        ∀ row ∈ series, row.length = (g.get e).size_out)
      f.elems (run backend g f duration dt fuel).data := by
  refine ⟨rfl, ?_⟩
  show List.Forall₂ _ f.elems
    ((f.elems.map (fun e => probe g e)).map (fun pr => pr backend (duration / dt)))
  rw [List.map_map]
  rw [List.forall₂_map_right_iff]
  rw [List.forall₂_same]
  intro e _
  exact ⟨(hgb _ _).1, (hgb _ _).2⟩

/-- Closed instance of the run-shape theorem: a `(3, 4)` fold over the
size-2 node, run for 5 steps on the all-zero backend, keeps shape `[3, 4]`
with twelve 5-by-2 time series. -/
theorem run_reshapes_probed_output_witness :
    goodBackend constBackend
    ∧ ((run constBackend size2Graph runExampleFold 5 1 9).shape = runExampleFold.shape
      ∧ List.Forall₂ (fun e series => series.length = 5 / 1 ∧
          ∀ row ∈ series, row.length = (size2Graph.get e).size_out)
        runExampleFold.elems (run constBackend size2Graph runExampleFold 5 1 9).data) := by
  have hgb : goodBackend constBackend := by
    intro size steps
    refine ⟨by simp [constBackend], ?_⟩
    intro row hrow
    rw [List.eq_of_mem_replicate hrow]
    simp
  exact ⟨hgb, run_reshapes_probed_output constBackend size2Graph runExampleFold 5 1 9 hgb⟩

/-- C7 counterexample: `unbundle (bundle fold)` does not reconstruct every
Fold. For the rank-1 fold `[1]` over one node of output size 2, the round
trip yields shape `[2]` (two size-1 elements) instead of the original shape
`[1]` with one size-2 element; for the rank-2 fold of shape `[2, 3]` over
unit-size nodes, the round trip yields shape `[3, 2]` instead of `[2, 3]`. -/
theorem bundle_unbundle_roundtrip_fails :
    ((bundleUnbundle size2Fold size2Graph).map (fun r => r.1.shape) = some [2]
      ∧ size2Fold.shape = [1] ∧ ([2] : List Nat) ≠ [1])
    ∧ ((bundleUnbundle size2Fold size2Graph).map
          (fun r => r.1.elems.map r.2.sizeOut) = some [1, 1]
      ∧ size2Fold.elems.map size2Graph.sizeOut = [2])
    ∧ ((bundleUnbundle rank2Fold rank2Graph).map (fun r => r.1.shape) = some [3, 2]
      ∧ rank2Fold.shape = [2, 3] ∧ ([3, 2] : List Nat) ≠ [2, 3]) := by
  decide

/-- C7 (amended): for every rank-1 Fold all of whose elements have output
size 1, `unbundle (bundle (fold, axis = 0), axis = 0)` reconstructs a Fold
with the original shape and the original per-element output size. -/
theorem bundle_unbundle_roundtrip_unit_sizes (g : Graph) (f : Fold) (n : Nat)
    (hshape : f.shape = [n]) (hlen : f.elems.length = n)
    (hsizes : ∀ e ∈ f.elems, g.sizeOut e = 1) :
    ∃ u g2, bundleUnbundle f g = some (u, g2)
      ∧ u.shape = [n]
      ∧ u.elems.length = n
      ∧ ∀ e ∈ u.elems, g2.sizeOut e = 1 := by
  obtain ⟨sh, el⟩ := f
  simp only at hshape hlen hsizes
  subst hshape
  have hgrp_mem : ∀ e ∈ (List.range n).map (fun j => el.getD j 0), e ∈ el := by
    intro e he
    obtain ⟨j, hj, rfl⟩ := List.mem_map.mp he
    have hjn : j < el.length := hlen ▸ List.mem_range.mp hj
    rw [List.getD_eq_getElem el 0 hjn]
    exact List.getElem_mem _
  have hsum : (((List.range n).map (fun j => el.getD j 0)).map g.sizeOut).sum = n := by
    have hall : ∀ s ∈ ((List.range n).map (fun j => el.getD j 0)).map g.sizeOut,
        s = 1 := by
      intro s hs
      obtain ⟨e, he, rfl⟩ := List.mem_map.mp hs
      exact hsizes e (hgrp_mem e he)
    rw [List.eq_replicate_length.mpr hall, List.sum_const_nat]
    simp
  have hr1 : List.range 1 = [0] := rfl
  have hbundle : bundle ⟨[n], el⟩ g
      = some (⟨[], [g.nodes.length]⟩,
          ⟨g.nodes ++ [⟨"bundle", (List.range n).map (fun j => el.getD j 0), n, [], []⟩]⟩) := by
    simp only [bundle, List.prod_nil, hr1, List.map_cons, List.map_nil,
      Nat.mul_one, Nat.add_zero, addAll, addNode, hsum]
  have hk : Graph.sizeOut
      ⟨g.nodes ++ [⟨"bundle", (List.range n).map (fun j => el.getD j 0), n, [], []⟩]⟩
      g.nodes.length = n := by
    rw [Graph.sizeOut, get_append_new]
  refine ⟨⟨[n],
      (addAll ((List.range n).map
        (fun j => NodeRec.mk "slice" [g.nodes.length] 1 [] [j, j + 1]))
        ⟨g.nodes ++ [⟨"bundle", (List.range n).map (fun j => el.getD j 0), n, [], []⟩]⟩).1⟩,
    (addAll ((List.range n).map
        (fun j => NodeRec.mk "slice" [g.nodes.length] 1 [] [j, j + 1]))
        ⟨g.nodes ++ [⟨"bundle", (List.range n).map (fun j => el.getD j 0), n, [], []⟩]⟩).2,
    ?_, rfl, ?_, ?_⟩
  · rw [bundleUnbundle, hbundle]
    simp only [unbundle, List.getD_cons_zero, hk, List.all_cons, List.all_nil,
      beq_self_eq_true, Bool.and_true, if_true, List.map_cons, List.map_nil,
      List.flatten, List.nil_append, List.append_nil]
  · rw [addAll_fst_length]
    simp
  · intro e he
    obtain ⟨r, hr, hget⟩ := addAll_get_mem _ _ _ he
    obtain ⟨_, _, rfl⟩ := List.mem_map.mp hr
    rw [Graph.sizeOut, hget]

/-- Closed instance of the amended round trip on two unit-size nodes:
`unbundle (bundle ⟨[2], [0, 1]⟩)` has shape `[2]` with two size-1
elements. -/
theorem bundle_unbundle_roundtrip_unit_sizes_witness :
    (Fold.mk [2] [0, 1]).shape = [2]
    ∧ (Fold.mk [2] [0, 1]).elems.length = 2
    ∧ (∀ e ∈ (Fold.mk [2] [0, 1]).elems, unitFoldGraph.sizeOut e = 1)
    ∧ ∃ u g2, bundleUnbundle ⟨[2], [0, 1]⟩ unitFoldGraph = some (u, g2)
        ∧ u.shape = [2]
        ∧ u.elems.length = 2
        ∧ ∀ e ∈ u.elems, g2.sizeOut e = 1 := by
  refine ⟨rfl, rfl, by decide, ?_⟩
  exact bundle_unbundle_roundtrip_unit_sizes unitFoldGraph ⟨[2], [0, 1]⟩ 2
    rfl rfl (by decide)

end Gyrus
